import Mathlib

/-!
Verification of the cmdl interpreter (`src/cmdl_interpreter.py`).

The development is a shallow embedding of the interpreter: the parser
(`parse_lines`), the label index (`Interpreter._index_labels`), the
expression evaluator (`Interpreter.eval_expr`) and the execution engine
(`Interpreter.run_stmt_list`, `Interpreter.run_node`, `Interpreter.run`)
are translated into executable Lean functions.  Python's unbounded `while`
loops are modelled with an explicit fuel parameter; a result of `timeout`
means the modelled computation did not finish within the given fuel, an
`err` result models a raised exception, and `ok` models normal completion.

String manipulation is modelled over `List Char` (the `data` of a
`String`), so that every definition evaluates by kernel reduction.

Modelling restrictions (each noted at its definition): numeric values are
restricted to integers, since every claim verified here involves only
integer arithmetic; the model of Python `eval` covers integer literals,
boolean literals, unary sign, `+ - *`, parentheses and a single comparison,
which is the fragment the interpreter's substituted expressions use in the
verified claims — anything else is treated as an evaluation failure.
-/

set_option maxHeartbeats 1000000

namespace Cmdl

/-- Character model of the double-quote character. -/
def dq : Char := Char.ofNat 34

/-- Character model of the single-quote character. -/
def sq : Char := Char.ofNat 39

/-- Word character: the regex class `\w` over ASCII. -/
def isWordChar (c : Char) : Bool := c.isAlpha || c.isDigit || c = '_'

/-- First character of an identifier: `[A-Za-z_]`. -/
def isIdentStart (c : Char) : Bool := c.isAlpha || c = '_'

/-- Python `lstrip()` on the character list. -/
def listTrimLeft (cs : List Char) : List Char := cs.dropWhile Char.isWhitespace

/-- Strips trailing whitespace from the character list. -/
def listTrimRight (cs : List Char) : List Char :=
  (cs.reverse.dropWhile Char.isWhitespace).reverse

/-- Python `strip()` on the character list. -/
def listTrim (cs : List Char) : List Char := listTrimRight (listTrimLeft cs)

/-- Python `strip()` producing a string. -/
def strTrim (s : String) : String := String.mk (listTrim s.data)

/-- Python `lstrip()` producing a string. -/
def strLstrip (s : String) : String := String.mk (listTrimLeft s.data)

/-- ASCII lower-casing of one character (Python `str.lower` on the ASCII
command names the interpreter compares against). -/
def lowerChar (c : Char) : Char :=
  if c.isUpper then Char.ofNat (c.toNat + 32) else c

/-- ASCII `str.lower()`. -/
def strToLower (s : String) : String := String.mk (s.data.map lowerChar)

/-- Concatenation of a list of strings (Python `"".join`). -/
def strJoin (parts : List String) : String :=
  String.mk (parts.foldl (fun acc p => acc ++ p.data) [])

/-- Runtime value stored in the variable store (`Interpreter.vars`).
The source stores Python ints, floats, bools and strings; every claim
verified here involves only integer and string values, so the numeric
domain of the model is the integers (decimal-point literals are outside
the fragment these claims exercise).  Booleans arise from comparison
expressions evaluated by `math`/`set`. -/
inductive Value where
  | num (n : Int)
  | str (s : String)
  | bool (b : Bool)
deriving DecidableEq, Repr

/-- Numeric value of a digit string. -/
def digitsToNat (cs : List Char) : Nat :=
  cs.foldl (fun acc c => acc * 10 + (c.toNat - 48)) 0

/-- Model of `is_number` (src lines 21-26): the string parses as a number.
Python accepts anything `float()` accepts; the model accepts optionally
signed integer numerals with surrounding whitespace stripped (as `float`
does).  Decimal-point and exponent forms are outside the integer fragment
exercised by the claims. -/
def is_number (s : String) : Bool :=
  let t := listTrim s.data
  let t2 := match t with
    | c :: rest => if c = '-' || c = '+' then rest else t
    | [] => t
  !t2.isEmpty && t2.all Char.isDigit

/-- Model of `to_number` (src lines 28-34) on strings accepted by
`is_number`: the integer value of the numeral.  Every call site is guarded
by `is_number` (the unguarded loop-count call site is modelled separately
by `resolveLoopCount`), so the value returned on other strings (0) is
never observed. -/
def to_number (s : String) : Int :=
  match listTrim s.data with
  | c :: rest =>
    if c = '-' then -(Int.ofNat (digitsToNat rest))
    else if c = '+' then Int.ofNat (digitsToNat rest)
    else Int.ofNat (digitsToNat (c :: rest))
  | [] => 0

/-- True when the token is wrapped in a leading and trailing double quote,
or a leading and trailing single quote — the inline check used by the
`text` and `set` branches of `run_node` (src lines 271, 285).  As in the
source, a single quote character passes the check (start and end coincide). -/
def isQuoted (s : String) : Bool :=
  match s.data.head?, s.data.getLast? with
  | some a, some b => (a = dq && b = dq) || (a = sq && b = sq)
  | _, _ => false

/-- Python `s[1:-1]`: strips the first and last character. -/
def unquote (s : String) : String := String.mk ((s.data.drop 1).dropLast)

/-- Worker for `tokenize_text_args`: walks the characters with the
`in_quote` state of the source loop, accumulating the current part in
reverse. -/
def tokenizeTextArgsGo : List Char → List Char → Option Char → List String → List String
  | [], cur, _, parts =>
    let last := listTrim cur.reverse
    if last.isEmpty then parts else parts ++ [String.mk last]
  | c :: rest, cur, some q, parts =>
    tokenizeTextArgsGo rest (c :: cur) (if c = q then none else some q) parts
  | c :: rest, cur, none, parts =>
    if c = dq || c = sq then tokenizeTextArgsGo rest (c :: cur) (some c) parts
    else if c = ',' then
      tokenizeTextArgsGo rest [] none (parts ++ [String.mk (listTrim cur.reverse)])
    else tokenizeTextArgsGo rest (c :: cur) none parts

/-- Model of `tokenize_text_args` (src lines 68-97): splits the argument
string on commas outside quoted spans; each part split off at a comma is
stripped and kept even when empty, while the final part is kept only when
nonempty after stripping. -/
def tokenize_text_args (s : String) : List String :=
  tokenizeTextArgsGo s.data [] none []

/-- Result of matching a statement line against the command regex of
`run_node` (src line 256): the command identifier, the optional
parenthesised group, and the optional trailing-text group. -/
structure CmdMatch where
  cmd : String
  paren : Option String
  trailing : Option String
deriving DecidableEq, Repr

/-- Splits off the maximal identifier prefix (`[A-Za-z_]\w*`); fails when
the first character cannot start an identifier. -/
def identSplit (cs : List Char) : Option (List Char × List Char) :=
  match cs with
  | c :: _ =>
    if isIdentStart c then some (cs.takeWhile isWordChar, cs.dropWhile isWordChar) else none
  | [] => none

/-- Matches the trailing `(?:\s+(.*))?$` part of the command regex: the
remainder must be empty (group absent) or start with whitespace, in which
case the group is the remainder with its maximal leading-whitespace run
removed (`\s+` is greedy). -/
def trailingSplit : List Char → Option (Option String)
  | [] => some none
  | c :: rest =>
    if c.isWhitespace then some (some (String.mk (rest.dropWhile Char.isWhitespace)))
    else none

/-- Model of the command regex `^([A-Za-z_]\w*)(?:\(([^)]*)\))?(?:\s+(.*))?$`
(src line 256), including the backtracking the regex engine performs: the
parenthesised group is tried first (its content runs to the first closing
parenthesis); if the rest of the pattern then fails, the group is retried
as absent.  A shorter identifier group can never lead to a match, since the
character after it would be a word character, which matches neither an
opening parenthesis, whitespace, nor end of line. -/
def matchCmdLine (raw : String) : Option CmdMatch :=
  match identSplit raw.data with
  | none => none
  | some (idPart, rest) =>
    let noParen : Option CmdMatch :=
      match trailingSplit rest with
      | some t => some ⟨String.mk idPart, none, t⟩
      | none => none
    match rest with
    | '(' :: afterOpen =>
      if (afterOpen.takeWhile (fun c => c ≠ ')')).length < afterOpen.length then
        let content := afterOpen.takeWhile (fun c => c ≠ ')')
        let afterClose := (afterOpen.dropWhile (fun c => c ≠ ')')).drop 1
        match trailingSplit afterClose with
        | some t => some ⟨String.mk idPart, some (String.mk content), t⟩
        | none => noParen
      else noParen
    | _ => noParen

/-- Model of the assignment regex `^([A-Za-z_]\w*)\s*=\s*(.+)$` used by the
`set` and `math` branches (src lines 280, 296).  Returns the variable name
and the second group as the regex engine captures it: the text after the
equals sign with its maximal leading-whitespace run removed, except that
when that removal would leave the group empty the greedy whitespace run
backs off to leave a single character for `(.+)`. -/
def matchAssign (rest : String) : Option (String × String) :=
  match identSplit rest.data with
  | none => none
  | some (namePart, r1) =>
    match r1.dropWhile Char.isWhitespace with
    | '=' :: r2 =>
      if r2.isEmpty then none
      else
        let g2 := r2.dropWhile Char.isWhitespace
        if g2.isEmpty then some (String.mk namePart, String.mk (r2.drop (r2.length - 1)))
        else some (String.mk namePart, String.mk g2)
    | _ => none

/-- Model of the goto-label normalisation (src lines 306-307): strip the
argument, then delete a trailing `()` (the substitution `\(\)\s*$`; after
stripping no trailing whitespace remains). -/
def gotoLabel (rest : String) : String :=
  match (listTrim rest.data).reverse with
  | ')' :: '(' :: t => String.mk t.reverse
  | l => String.mk l.reverse

/-- Exceptions the interpreter can raise: `RuntimeErrorInter`, the
`ValueError` Python raises when a non-numeric loop count reaches `float()`,
and `sys.exit` from the `exit` command. -/
inductive Exc where
  | runtimeError (msg : String)
  | valueError (msg : String)
  | sysExit
deriving DecidableEq, Repr

/-- Lookup in the association-list model of a Python dict; updates prepend,
so the first match is the most recent write. -/
def alookup {α : Type} : List (String × α) → String → Option α
  | [], _ => none
  | (k, v) :: tl, n => if k = n then some v else alookup tl n

/-- Value produced by the model of Python `eval`. -/
inductive PyVal where
  | vint (n : Int)
  | vbool (b : Bool)
deriving DecidableEq, Repr

/-- Python's coercion of a boolean into arithmetic. -/
def pyValToInt : PyVal → Int
  | .vint n => n
  | .vbool b => if b then 1 else 0

/-- Python truthiness of an evaluation result (`bool(...)`, src line 387). -/
def pyBool : PyVal → Bool
  | .vint n => decide (n ≠ 0)
  | .vbool b => b

/-- Token of the modelled expression language. -/
inductive Tok where
  | num (n : Nat)
  | ttrue
  | tfalse
  | plus
  | minus
  | star
  | lparen
  | rparen
  | eqq
  | neq
  | ltt
  | lee
  | gtt
  | gee
deriving DecidableEq, Repr

/-- Worker of `tokenizeExpr`; the fuel only serves structural recursion and
is chosen large enough at the call site never to run out (every step
consumes at least one character). -/
def tokenizeExprGo : Nat → List Char → Option (List Tok)
  | 0, _ => none
  | _, [] => some []
  | fuel + 1, c :: rest =>
    if c.isWhitespace then tokenizeExprGo fuel rest
    else if c.isDigit then
      let ds := c :: rest.takeWhile Char.isDigit
      let r := rest.dropWhile Char.isDigit
      match r with
      | d :: _ =>
        if isWordChar d then none
        else (tokenizeExprGo fuel r).map (fun ts => Tok.num (digitsToNat ds) :: ts)
      | [] => some [Tok.num (digitsToNat ds)]
    else if isIdentStart c then
      let r := rest.dropWhile isWordChar
      let w := c :: rest.takeWhile isWordChar
      if String.mk w = "True" then (tokenizeExprGo fuel r).map (fun ts => Tok.ttrue :: ts)
      else if String.mk w = "False" then (tokenizeExprGo fuel r).map (fun ts => Tok.tfalse :: ts)
      else none
    else if c = '+' then (tokenizeExprGo fuel rest).map (fun ts => Tok.plus :: ts)
    else if c = '-' then (tokenizeExprGo fuel rest).map (fun ts => Tok.minus :: ts)
    else if c = '*' then (tokenizeExprGo fuel rest).map (fun ts => Tok.star :: ts)
    else if c = '(' then (tokenizeExprGo fuel rest).map (fun ts => Tok.lparen :: ts)
    else if c = ')' then (tokenizeExprGo fuel rest).map (fun ts => Tok.rparen :: ts)
    else if c = '=' then
      match rest with
      | '=' :: r => (tokenizeExprGo fuel r).map (fun ts => Tok.eqq :: ts)
      | _ => none
    else if c = '!' then
      match rest with
      | '=' :: r => (tokenizeExprGo fuel r).map (fun ts => Tok.neq :: ts)
      | _ => none
    else if c = '<' then
      match rest with
      | '=' :: r => (tokenizeExprGo fuel r).map (fun ts => Tok.lee :: ts)
      | r => (tokenizeExprGo fuel r).map (fun ts => Tok.ltt :: ts)
    else if c = '>' then
      match rest with
      | '=' :: r => (tokenizeExprGo fuel r).map (fun ts => Tok.gee :: ts)
      | r => (tokenizeExprGo fuel r).map (fun ts => Tok.gtt :: ts)
    else none

/-- Tokenizer of the model of Python `eval`.  The interpreter evaluates the
text that results from substituting variable values into a user expression;
within the verified claims that text consists of integer literals, boolean
literals, the operators `+ - *` and comparisons, and parentheses.  Anything
else (strings, division, the boolean keywords, attribute syntax, ...)
makes the tokenizer fail, which the evaluator treats as an evaluation
failure. -/
def tokenizeExpr (cs : List Char) : Option (List Tok) :=
  tokenizeExprGo (cs.length + 1) cs

/-- Comparison denoted by a comparison token, on coerced integers. -/
def cmpDenote (t : Tok) (a b : Int) : Bool :=
  match t with
  | .eqq => decide (a = b)
  | .neq => decide (a ≠ b)
  | .ltt => decide (a < b)
  | .lee => decide (a ≤ b)
  | .gtt => decide (a > b)
  | .gee => decide (a ≥ b)
  | _ => false

/-- True when the token is a comparison operator. -/
def isCmpTok (t : Tok) : Bool :=
  match t with
  | .eqq | .neq | .ltt | .lee | .gtt | .gee => true
  | _ => false

mutual

/-- Atom of the expression grammar: literal, unary sign, parenthesised
expression. -/
def parseAtom : Nat → List Tok → Option (PyVal × List Tok)
  | 0, _ => none
  | fuel + 1, ts =>
    match ts with
    | .num n :: r => some (.vint (Int.ofNat n), r)
    | .ttrue :: r => some (.vbool true, r)
    | .tfalse :: r => some (.vbool false, r)
    | .minus :: r => (parseAtom fuel r).map (fun p => (.vint (-(pyValToInt p.1)), p.2))
    | .plus :: r => (parseAtom fuel r).map (fun p => (.vint (pyValToInt p.1), p.2))
    | .lparen :: r =>
      match parseCmp fuel r with
      | some (v, .rparen :: r2) => some (v, r2)
      | _ => none
    | _ => none
termination_by structural fuel => fuel

/-- Product level of the grammar. -/
def parseMul : Nat → List Tok → Option (PyVal × List Tok)
  | 0, _ => none
  | fuel + 1, ts =>
    match parseAtom fuel ts with
    | some (v, r) => parseMulGo fuel v r
    | none => none
termination_by structural fuel => fuel

/-- Left-associated chain of `*`. -/
def parseMulGo : Nat → PyVal → List Tok → Option (PyVal × List Tok)
  | 0, _, _ => none
  | fuel + 1, acc, ts =>
    match ts with
    | .star :: r =>
      match parseAtom fuel r with
      | some (v, r2) => parseMulGo fuel (.vint (pyValToInt acc * pyValToInt v)) r2
      | none => none
    | _ => some (acc, ts)
termination_by structural fuel => fuel

/-- Sum level of the grammar. -/
def parseAdd : Nat → List Tok → Option (PyVal × List Tok)
  | 0, _ => none
  | fuel + 1, ts =>
    match parseMul fuel ts with
    | some (v, r) => parseAddGo fuel v r
    | none => none
termination_by structural fuel => fuel

/-- Left-associated chain of `+` and `-`. -/
def parseAddGo : Nat → PyVal → List Tok → Option (PyVal × List Tok)
  | 0, _, _ => none
  | fuel + 1, acc, ts =>
    match ts with
    | .plus :: r =>
      match parseMul fuel r with
      | some (v, r2) => parseAddGo fuel (.vint (pyValToInt acc + pyValToInt v)) r2
      | none => none
    | .minus :: r =>
      match parseMul fuel r with
      | some (v, r2) => parseAddGo fuel (.vint (pyValToInt acc - pyValToInt v)) r2
      | none => none
    | _ => some (acc, ts)
termination_by structural fuel => fuel

/-- Top level of the grammar: at most one comparison (chained comparisons
are outside the modelled fragment). -/
def parseCmp : Nat → List Tok → Option (PyVal × List Tok)
  | 0, _ => none
  | fuel + 1, ts =>
    match parseAdd fuel ts with
    | some (v, op :: r) =>
      if isCmpTok op then
        match parseAdd fuel r with
        | some (w, r2) => some (.vbool (cmpDenote op (pyValToInt v) (pyValToInt w)), r2)
        | none => none
      else some (v, op :: r)
    | res => res
termination_by structural fuel => fuel

end

/-- Model of Python `eval` on the substituted expression text, restricted
to the fragment described at `tokenizeExpr`. -/
def pyEvalStr (s : String) : Option PyVal :=
  match tokenizeExpr s.data with
  | none => none
  | some ts =>
    match parseCmp (8 * ts.length + 16) ts with
    | some (v, []) => some v
    | _ => none

/-- Model of `repl_var` inside `eval_expr` (src lines 205-216) for one
matched identifier token: the boolean keywords are kept, a numeric-string
value passes through unquoted, numbers and booleans render as their Python
`str`, other strings render as their repr (modelled as wrapping in single
quotes), and an unknown identifier becomes the literal `0`. -/
def replVar (vars : List (String × Value)) (name : String) : String :=
  if name = "and" || name = "or" || name = "not" then name
  else
    match alookup vars name with
    | some (.str v) => if is_number v then v else String.mk (sq :: (v.data ++ [sq]))
    | some (.num n) => toString n
    | some (.bool b) => if b then "True" else "False"
    | none => "0"

/-- Worker for the `re.sub` over `\b[A-Za-z_]\w*\b`: splits the character
list into maximal word-character runs; a run whose first character can
start an identifier is a match of the regex and is replaced, while a run
starting with a digit (such as `2x`) contains no interior word boundary
and is left unchanged.  The fuel only serves structural recursion and is
chosen large enough at the call site never to run out. -/
def substRunsGo (repl : String → String) : Nat → List Char → List Char
  | 0, _ => []
  | _, [] => []
  | fuel + 1, c :: cs =>
    if isWordChar c then
      let rest := cs.dropWhile isWordChar
      let run := c :: cs.takeWhile isWordChar
      (if isIdentStart c then (repl (String.mk run)).data else run) ++
        substRunsGo repl fuel rest
    else c :: substRunsGo repl fuel cs

/-- The `re.sub(r'\b[A-Za-z_]\w*\b', repl, s)` substitution shared by
`eval_expr` and the condition evaluator. -/
def substRuns (repl : String → String) (cs : List Char) : List Char :=
  substRunsGo repl (cs.length + 1) cs

/-- Model of the identifier substitution in `eval_expr` (src line 217). -/
def substExprVars (vars : List (String × Value)) (expr : String) : String :=
  String.mk (substRuns (replVar vars) expr.data)

/-- Decidable equality for exception-carrying results, used to evaluate
concrete runs of the model. -/
instance {e a : Type} [DecidableEq e] [DecidableEq a] : DecidableEq (Except e a) :=
  fun x y =>
    match x, y with
    | .ok u, .ok v => if h : u = v then isTrue (by rw [h]) else isFalse (by simp [h])
    | .error u, .error v => if h : u = v then isTrue (by rw [h]) else isFalse (by simp [h])
    | .ok _, .error _ => isFalse (by simp)
    | .error _, .ok _ => isFalse (by simp)

/-- Model of `Interpreter.eval_expr` (src lines 204-221): substitute
identifiers, then evaluate the resulting arithmetic/boolean text; an
evaluation failure raises `RuntimeErrorInter` (the model's message omits
the text of the underlying Python exception). -/
def eval_expr (vars : List (String × Value)) (expr : String) : Except Exc Value :=
  match pyEvalStr (substExprVars vars expr) with
  | some (.vint n) => .ok (.num n)
  | some (.vbool b) => .ok (.bool b)
  | none => .error (.runtimeError ("Bad expression: " ++ expr))

/-- Model of the substitution `re.sub(r'(?<![=!<>])\s=\s(?!=)', '==', c)`
(src line 377): a single equals sign between whitespace characters becomes
a double one when the character before the match is none of `= ! < >` and
the character after it is not `=`; `prev` is the character preceding the
scan position in the original text (the lookbehind), and scanning resumes
after each replaced match. -/
def normEqGo : Nat → Option Char → List Char → List Char
  | 0, _, cs => cs
  | _, _, [] => []
  | fuel + 1, prev, a :: rest =>
    match rest with
    | '=' :: c :: r =>
      if a.isWhitespace && c.isWhitespace &&
         !(prev = some '=' || prev = some '!' || prev = some '<' || prev = some '>') &&
         r.head? ≠ some '=' then
        '=' :: '=' :: normEqGo fuel (some c) r
      else a :: normEqGo fuel (some a) rest
    | _ => a :: normEqGo fuel (some a) rest

/-- Model of `rv` inside the condition evaluation (src lines 378-385):
unlike `repl_var`, string values always render as their repr and the
boolean keywords receive no special treatment. -/
def replVarCond (vars : List (String × Value)) (name : String) : String :=
  match alookup vars name with
  | some (.str v) => String.mk (sq :: (v.data ++ [sq]))
  | some (.num n) => toString n
  | some (.bool b) => if b then "True" else "False"
  | none => "0"

/-- Model of the condition evaluation in the `if` branch of `run_node`
(src lines 374-389): normalise a single `=` to `==`, substitute variable
values, evaluate, and take Python truthiness; failures raise
`RuntimeErrorInter` (message modelled without the underlying cause). -/
def condEval (vars : List (String × Value)) (cond : String) : Except Exc Bool :=
  let normalised := normEqGo (cond.data.length + 1) none cond.data
  let condSafe := String.mk (substRuns (replVarCond vars) normalised)
  match pyEvalStr condSafe with
  | some v => .ok (pyBool v)
  | none => .error (.runtimeError ("Bad condition: " ++ cond))

/-- Kind of a conditional arm. -/
inductive PKind where
  | pif
  | pelif
  | pelse
deriving DecidableEq, Repr

/-- Node of the parsed program tree (the dictionaries built by
`parse_lines`, src lines 105-172).  An `ifNode` is the wrapper dictionary
of type `"if"` holding its arms (`parts`, each a kind, optional condition,
raw text and body); an `orphan` is an `elif`/`else` arm dictionary appended
directly to the statement list when no preceding wrapper exists (src lines
149, 164).  Label nodes always have an empty child list in the source, so
none is stored.  The `parent` back-pointers of the source are not
represented; jump targets address lists by path instead (`ListAddr`). -/
inductive Node where
  | label (name : String) (raw : String)
  | loop (param : Option String) (raw : String) (children : List Node)
  | ifNode (parts : List (PKind × Option String × String × List Node)) (raw : String)
  | orphan (kind : PKind) (cond : Option String) (raw : String) (children : List Node)
  | stmt (raw : String)

/-- Address of a statement list inside the program tree: the root list,
the child list of a loop node, the body of a conditional arm, or the
(always empty) child list of an orphan arm.  This replaces the Python
parent-list object references held in the label table. -/
inductive ListAddr where
  | rootA
  | loopBody (parent : ListAddr) (idx : Nat)
  | armBody (parent : ListAddr) (idx : Nat) (arm : Nat)
  | orphanBody (parent : ListAddr) (idx : Nat)
deriving DecidableEq, Repr

/-- Resolves a list address in the tree. -/
def getList (root : List Node) : ListAddr → Option (List Node)
  | .rootA => some root
  | .loopBody a i =>
    match getList root a with
    | some l =>
      match l[i]? with
      | some (.loop _ _ cs) => some cs
      | _ => none
    | none => none
  | .armBody a i k =>
    match getList root a with
    | some l =>
      match l[i]? with
      | some (.ifNode parts _) =>
        match parts[k]? with
        | some (_, _, _, cs) => some cs
        | none => none
      | _ => none
    | none => none
  | .orphanBody a i =>
    match getList root a with
    | some l =>
      match l[i]? with
      | some (.orphan _ _ _ cs) => some cs
      | _ => none
    | none => none

/-- Python dict assignment: the new binding shadows previous ones (the
lookup `alookup` takes the first match). -/
def dictUpd {α : Type} (d : List (String × α)) (k : String) (v : α) : List (String × α) :=
  (k, v) :: d

/-- Equality test used by the `parent.index(n)` lookup in `_index_labels`
(src line 193): `n` is a label dictionary there, and two label
dictionaries compare equal exactly when their `name` and `raw` entries
agree (their child lists are always empty and their parent is the same
list object, for which Python's identity shortcut applies). -/
def labelNodeEq (name raw : String) : Node → Bool
  | .label n r => n = name && r = raw
  | _ => false

mutual

/-- Model of `Interpreter._index_labels` (src lines 188-202): walks a
statement list; a label node at position `idx` registers the jump target
`(list, i + 1)` where `i` is the position of the first node equal to it
(Python `parent.index(n)`, which differs from `idx` only when an identical
label line occurs twice in the same list); the walk then recurses into
loop children, orphan children (always empty) and every conditional arm.
The fuel only serves structural recursion; the caller passes a bound that
the traversal, which visits each node once, can never exhaust. -/
def indexLabelsGo : Nat → ListAddr → List Node → List Node → Nat → List (String × ListAddr × Nat) → List (String × ListAddr × Nat)
  | _, _, _, [], _, tbl => tbl
  | 0, _, _, _ :: _, _, tbl => tbl
  | fuel + 1, addr, full, n :: rest, idx, tbl =>
    let tbl1 := match n with
      | .label name raw =>
        let i := full.findIdx (labelNodeEq name raw)
        dictUpd tbl name (addr, i + 1)
      | _ => tbl
    let tbl2 := match n with
      | .loop _ _ cs => indexLabelsGo fuel (.loopBody addr idx) cs cs 0 tbl1
      | .orphan _ _ _ cs => indexLabelsGo fuel (.orphanBody addr idx) cs cs 0 tbl1
      | .ifNode parts _ => indexLabelsParts fuel addr idx parts 0 tbl1
      | _ => tbl1
    indexLabelsGo fuel addr full rest (idx + 1) tbl2
termination_by structural fuel => fuel

/-- Arm traversal of `_index_labels` (src lines 200-202). -/
def indexLabelsParts : Nat → ListAddr → Nat → List (PKind × Option String × String × List Node) → Nat → List (String × ListAddr × Nat) → List (String × ListAddr × Nat)
  | _, _, _, [], _, tbl => tbl
  | 0, _, _, _ :: _, _, tbl => tbl
  | fuel + 1, addr, idx, (_, _, _, cs) :: rest, k, tbl =>
    let tbl1 := indexLabelsGo fuel (.armBody addr idx k) cs cs 0 tbl
    indexLabelsParts fuel addr idx rest (k + 1) tbl1
termination_by structural fuel => fuel

end

/-- The label index of a finished tree; the fuel bound (twice the node
count plus one, computed from the caller's line count) cannot be exhausted
by the single-visit traversal. -/
def indexLabels (root : List Node) (fuel : Nat) : List (String × ListAddr × Nat) :=
  indexLabelsGo fuel .rootA root root 0 []

/-- Classification of a stripped source line (the regexes at src lines
119-169, tried in source order: label, loop, if/elif, else, statement). -/
inductive LineKind where
  | labelL (name : String)
  | loopL (param : Option String)
  | ifL (kind : PKind) (cond : String)
  | elseL
  | stmtL
deriving DecidableEq, Repr

/-- Match of the label regex `^([A-Za-z_]\w*)\(\):\s*$` (src line 119). -/
def matchLabel (cs : List Char) : Option String :=
  match identSplit cs with
  | some (namePart, rest) =>
    match rest with
    | '(' :: ')' :: ':' :: r =>
      if r.all Char.isWhitespace then some (String.mk namePart) else none
    | _ => none
  | none => none

/-- Match of the loop regex `^loop(?:\(([^)]*)\))?:\s*$` (src line 125);
the optional group yields the raw parameter text (possibly empty). -/
def matchLoop (cs : List Char) : Option (Option String) :=
  match cs with
  | 'l' :: 'o' :: 'o' :: 'p' :: rest =>
    match rest with
    | ':' :: r => if r.all Char.isWhitespace then some none else none
    | '(' :: afterOpen =>
      if (afterOpen.takeWhile (fun c => c ≠ ')')).length < afterOpen.length then
        let content := afterOpen.takeWhile (fun c => c ≠ ')')
        match (afterOpen.dropWhile (fun c => c ≠ ')')).drop 1 with
        | ':' :: r =>
          if r.all Char.isWhitespace then some (some (String.mk content)) else none
        | _ => none
      else none
    | _ => none
  | _ => none

/-- Worker for the lazy group `(.+?):\s*$` of the conditional-arm regex:
finds the shortest nonempty prefix of the remaining text followed by a
colon whose suffix is all whitespace; `acc` holds the reversed prefix
scanned so far.  The fuel only serves structural recursion. -/
def lazyCondGo : Nat → List Char → List Char → Option (List Char)
  | 0, _, _ => none
  | fuel + 1, acc, cs =>
    match cs with
    | ':' :: t =>
      if t.all Char.isWhitespace && !acc.isEmpty then some acc.reverse
      else lazyCondGo fuel (':' :: acc) t
    | c :: t => lazyCondGo fuel (c :: acc) t
    | [] => none

/-- Worker for the greedy `\s+` before the lazy group: the maximal
whitespace run is tried first and backs off one character at a time
(regex backtracking order); `w + 1` is the run length being tried. -/
def ifCondSearch : Nat → List Char → Option (List Char)
  | 0, _ => none
  | w + 1, r =>
    match lazyCondGo (r.length + 1) [] (r.drop (w + 1)) with
    | some c => some c
    | none => ifCondSearch w r

/-- Match of the conditional-arm regex `^(if|elif)\s+(.+?):\s*$`
(src line 133) for one keyword: after the keyword at least one whitespace
character must follow; the greedy `\s+` takes the maximal run and backs
off while the lazy `(.+?)` grows until a colon followed by only
whitespace closes the match. -/
def matchIfKw (kw : List Char) (cs : List Char) : Option String :=
  if cs.take kw.length = kw then
    let r := cs.drop kw.length
    let maxW := (r.takeWhile Char.isWhitespace).length
    if maxW = 0 then none
    else
      match ifCondSearch maxW r with
      | some cond => some (String.mk cond)
      | none => none
  else none

/-- The `(if|elif)` alternation: the `if` branch is tried first, and on
failure of the whole pattern the `elif` branch is tried. -/
def matchIf (cs : List Char) : Option (PKind × String) :=
  match matchIfKw ['i', 'f'] cs with
  | some cond => some (.pif, cond)
  | none =>
    match matchIfKw ['e', 'l', 'i', 'f'] cs with
    | some cond => some (.pelif, cond)
    | none => none

/-- Match of `^else:\s*$` (src line 134). -/
def matchElse (cs : List Char) : Bool :=
  match cs with
  | 'e' :: 'l' :: 's' :: 'e' :: ':' :: r => r.all Char.isWhitespace
  | _ => false

/-- Line classification in source order (src lines 119-169): label, loop,
if/elif, else, plain statement. -/
def classifyLine (stripped : String) : LineKind :=
  match matchLabel stripped.data with
  | some name => .labelL name
  | none =>
    match matchLoop stripped.data with
    | some p => .loopL p
    | none =>
      match matchIf stripped.data with
      | some (k, c) => .ifL k c
      | none => if matchElse stripped.data then .elseL else .stmtL

/-- Model of `indent_level` (src lines 61-66): leading tabs count one level
each when the line starts with a tab; otherwise the count of leading
spaces (spaces only) divided by 4, rounding down. -/
def indentLevel (raw : String) : Int :=
  match raw.data with
  | c :: _ =>
    if c = '\t' then Int.ofNat (raw.data.takeWhile (fun x => x = '\t')).length
    else Int.ofNat ((raw.data.takeWhile (fun x => x = ' ')).length / 4)
  | [] => 0

/-- How a finished block body plugs back into its parent frame when the
indentation stack pops: nowhere (root), into the trailing loop node of the
parent list, or into arm `arm` of the conditional at position `idx`. -/
inductive PlugSpec where
  | top
  | loopPlug
  | armPlug (idx : Nat) (arm : Nat)
deriving DecidableEq, Repr

/-- One entry of the indentation stack of `parse_lines` (src line 107):
the depth at which the block was opened, the nodes appended so far to its
statement list, and how the list plugs into the parent frame.  In the
source the stack holds references into the shared mutable tree; here each
frame owns its list and the mutation is replayed when the frame pops. -/
structure Frame where
  depth : Int
  acc : List Node
  plug : PlugSpec

/-- Replays the mutation of a finished arm body: node `i` of the parent
list is the conditional wrapper and arm `k` receives the children. -/
def setArmChildren (acc : List Node) (i k : Nat) (cs : List Node) : List Node :=
  match acc[i]? with
  | some (.ifNode parts raw) =>
    match parts[k]? with
    | some (kd, cond, praw, _) => acc.set i (.ifNode (parts.set k (kd, cond, praw, cs)) raw)
    | none => acc
  | _ => acc

/-- Replays the mutation of a finished loop body: the last node of the
parent list is the loop placeholder and receives the children. -/
def setLoopChildren (acc cs : List Node) : List Node :=
  match acc.getLast? with
  | some (.loop p raw _) => acc.dropLast ++ [.loop p raw cs]
  | _ => acc

/-- Plugs the popped frame's finished list into the frame below it. -/
def plugInto (f g : Frame) : Frame :=
  match f.plug with
  | .top => g
  | .loopPlug => { g with acc := setLoopChildren g.acc f.acc }
  | .armPlug i k => { g with acc := setArmChildren g.acc i k f.acc }

/-- The pop loop of the tree builder (src line 115): pop while the line's
depth is at most the top frame's depth and more than one frame remains.
The fuel is the stack height, which bounds the number of pops. -/
def popFramesGo : Nat → Int → List Frame → List Frame
  | 0, _, fs => fs
  | fuel + 1, ind, f :: g :: rest =>
    if ind ≤ f.depth then popFramesGo fuel ind (plugInto f g :: rest) else f :: g :: rest
  | _, _, fs => fs

/-- Pop loop entry point. -/
def popFrames (ind : Int) (fs : List Frame) : List Frame :=
  popFramesGo fs.length ind fs

/-- True for conditional wrapper nodes. -/
def isIfNode : Node → Bool
  | .ifNode _ _ => true
  | _ => false

/-- The backward scan of `parse_lines` for an `elif`/`else` (src lines
143-147 and 158-162): `for n in reversed(cur_list)` stopping at the first
node of type `if`, i.e. the position of the last conditional wrapper in
the list, however far back it sits. -/
def findLastIf : List Node → Option Nat
  | [] => none
  | n :: tl =>
    match findLastIf tl with
    | some k => some (k + 1)
    | none => if isIfNode n then some 0 else none

/-- Appends a new arm to the conditional wrapper at position `i`
(`found["parts"].append(node)`, src lines 152 and 165). -/
def appendArm (acc : List Node) (i : Nat) (kd : PKind) (cond : Option String) (raw : String) : List Node :=
  match acc[i]? with
  | some (.ifNode parts wraw) => acc.set i (.ifNode (parts ++ [(kd, cond, raw, [])]) wraw)
  | _ => acc

/-- Number of arms of the conditional wrapper at position `i`. -/
def armCount (acc : List Node) (i : Nat) : Nat :=
  match acc[i]? with
  | some (.ifNode parts _) => parts.length
  | _ => 0

/-- Processes one source line of `parse_lines` (src lines 109-171): skip
blank and comment lines, pop closed blocks, classify the stripped line,
and append to the top frame.  A label is a plain append; a loop and a
conditional arm push a body frame; an `elif`/`else` attaches an arm to
the wrapper found by `findLastIf` or, when none exists, is appended as an
orphan node without pushing a frame.  Loop parameters follow
`param.strip() if param else None` (src line 128).  Input lines carry no
trailing newline (the `rstrip` of src line 110 is already applied by the
line splitting). -/
def parseLine (fs : List Frame) (raw : String) : List Frame :=
  let t := listTrim raw.data
  if t.isEmpty || t.head? = some '#' then fs
  else
    let ind := indentLevel raw
    match popFrames ind fs with
    | [] => []
    | f :: rest =>
      let stripped := String.mk (listTrimLeft raw.data)
      match classifyLine stripped with
      | .labelL name => { f with acc := f.acc ++ [.label name stripped] } :: rest
      | .loopL g =>
        let param : Option String :=
          match g with
          | none => none
          | some s => if s = "" then none else some (strTrim s)
        ⟨ind, [], .loopPlug⟩ :: { f with acc := f.acc ++ [.loop param stripped []] } :: rest
      | .ifL PKind.pif cond =>
        ⟨ind, [], .armPlug f.acc.length 0⟩ ::
          { f with acc := f.acc ++ [.ifNode [(.pif, some (strTrim cond), stripped, [])] stripped] } :: rest
      | .ifL _ cond =>
        match findLastIf f.acc with
        | none =>
          { f with acc := f.acc ++ [.orphan .pelif (some (strTrim cond)) stripped []] } :: rest
        | some i =>
          let acc2 := appendArm f.acc i .pelif (some (strTrim cond)) stripped
          ⟨ind, [], .armPlug i (armCount acc2 i - 1)⟩ :: { f with acc := acc2 } :: rest
      | .elseL =>
        match findLastIf f.acc with
        | none => { f with acc := f.acc ++ [.orphan .pelse none stripped []] } :: rest
        | some i =>
          let acc2 := appendArm f.acc i .pelse none stripped
          ⟨ind, [], .armPlug i (armCount acc2 i - 1)⟩ :: { f with acc := acc2 } :: rest
      | .stmtL => { f with acc := f.acc ++ [.stmt stripped] } :: rest

/-- Pops every remaining frame at end of input.  In the source the shared
mutable tree needs no finalisation; here the pending plug operations are
replayed.  The fuel is the stack height. -/
def popAllGo : Nat → List Frame → List Node
  | 0, fs =>
    match fs with
    | f :: _ => f.acc
    | [] => []
  | fuel + 1, fs =>
    match fs with
    | [f] => f.acc
    | f :: g :: rest => popAllGo fuel (plugInto f g :: rest)
    | [] => []

/-- Model of `parse_lines` (src lines 105-172). -/
def parse_lines (lines : List String) : List Node :=
  let final := lines.foldl parseLine [⟨-1, [], .top⟩]
  popAllGo final.length final

/-- Interpreter state: mirrors the `Interpreter` object's fields `root`,
`labels` and `vars` (src lines 181-186), plus the lines printed so far
(the terminal-effects sink; `clear`, `color` and `pause` touch only the
external terminal and leave no record here). -/
structure InterpState where
  root : List Node
  labels : List (String × ListAddr × Nat)
  vars : List (String × Value)
  output : List String

/-- Signal returned by `run_node` (the result dictionaries of src lines
308, 342, 346, 357, 359, ...): ordinary completion (`None`), a goto
dictionary carrying a label, a propagated-jump dictionary (`label: None`
with a `jump` entry), or the return-to-caller dictionary. -/
inductive Signal where
  | none
  | goto (label : String)
  | gotoJump (target : ListAddr) (idx : Nat)
  | returnToCaller
deriving DecidableEq, Repr

/-- Result of `run_stmt_list` (src lines 242-246). -/
inductive StmtRes where
  | done
  | jump (target : ListAddr) (idx : Nat)
  | ret
deriving DecidableEq, Repr

/-- Result of a modelled computation: `timeout` when the fuel runs out
(the Python computation would still be running), `err` for a raised
exception, `ok` for normal completion. -/
inductive RunRes (α : Type) where
  | timeout
  | err (e : Exc)
  | ok (a : α)

/-- Appends one printed line (`print`, src lines 276, 278, 333). -/
def emit (st : InterpState) (line : String) : InterpState :=
  { st with output := st.output ++ [line] }

/-- Writes one variable (`self.vars[name] = v`). -/
def setVar (st : InterpState) (k : String) (v : Value) : InterpState :=
  { st with vars := dictUpd st.vars k v }

/-- The argument-selection step of `run_node` (src lines 260-263):
`rest = m.group(3) or ""`; the parenthesised group then replaces it only
when the group is truthy (present and nonempty) and the trailing text
strips to nothing — otherwise the trailing text stands. -/
def effectiveRest (paren : Option String) (trailing : Option String) : String :=
  let rest := trailing.getD ""
  match paren with
  | some p =>
    if p = "" then rest
    else if (listTrim rest.data).isEmpty then p
    else rest
  | none => rest

/-- Python `str()` of a stored value (integers print as their numeral,
booleans as `True`/`False`). -/
def valueToString : Value → String
  | .num n => toString n
  | .str s => s
  | .bool b => if b then "True" else "False"

/-- The `text` branch of `run_node` (src lines 265-276): resolve each
tokenized part — empty parts are skipped, quoted parts yield their
literal, bare tokens look the variable up with empty-text default — and
join the results into one printed line. -/
def textLine (vars : List (String × Value)) (rest : String) : String :=
  let parts := tokenize_text_args rest
  strJoin (parts.foldr (fun p acc =>
    let p2 := strTrim p
    if p2 = "" then acc
    else if isQuoted p2 then unquote p2 :: acc
    else valueToString ((alookup vars p2).getD (.str "")) :: acc) [])

/-- The loop-count resolution of `run_node` (src lines 348-352): a numeric
parameter is its own count, otherwise the parameter names a variable whose
current value (default 0) is coerced with `int(to_number(...))`; a
non-numeric string value reaches Python `float()` and raises `ValueError`.
Counts are integers in this model (no claim exercises a fractional
count). -/
def resolveLoopCount (vars : List (String × Value)) (p : String) : Except Exc Int :=
  if is_number p then .ok (to_number p)
  else
    match alookup vars p with
    | some (.num n) => .ok n
    | some (.bool b) => .ok (if b then 1 else 0)
    | some (.str s) => if is_number s then .ok (to_number s) else .error (.valueError s)
    | none => .ok 0

/-- The `set` branch of `run_node` (src lines 279-294): quoted values
store their literal text, numeric values their number, operator-bearing
values the evaluated expression, and anything else copies another
variable's value or stores the bare text. -/
def exec_set (st : InterpState) (raw : String) (rest : String) : Except Exc (InterpState × Signal) :=
  match matchAssign rest with
  | none => .error (.runtimeError ("Bad set syntax: " ++ raw))
  | some (name, g2) =>
    if isQuoted (strTrim g2) then .ok (setVar st name (.str (unquote (strTrim g2))), .none)
    else if is_number (strTrim g2) then
      .ok (setVar st name (.num (to_number (strTrim g2))), .none)
    else if (strTrim g2).data.any (fun c =>
        c = '+' || c = '-' || c = '*' || c = '/' || c = '(' || c = ')') then
      match eval_expr st.vars (strTrim g2) with
      | .ok v => .ok (setVar st name v, .none)
      | .error e => .error e
    else .ok (setVar st name ((alookup st.vars (strTrim g2)).getD (.str (strTrim g2))), .none)

/-- The `math` branch of `run_node` (src lines 295-302): parse the
assignment and always evaluate the right-hand side as an expression. -/
def exec_math (st : InterpState) (raw : String) (rest : String) : Except Exc (InterpState × Signal) :=
  match matchAssign rest with
  | none => .error (.runtimeError ("Bad math syntax: " ++ raw))
  | some (name, expr) =>
    match eval_expr st.vars expr with
    | .ok v => .ok (setVar st name v, .none)
    | .error e => .error e

/-- Command dispatch of the statement branch (src lines 265-333) on the
lower-cased command name and the selected argument text. -/
def exec_cmd (st : InterpState) (raw cmd rest : String) : Except Exc (InterpState × Signal) :=
  if cmd = "text" then .ok (emit st (textLine st.vars rest), .none)
  else if cmd = "echo" then .ok (emit st rest, .none)
  else if cmd = "set" then exec_set st raw rest
  else if cmd = "math" then exec_math st raw rest
  else if cmd = "clear" then .ok (st, .none)
  else if cmd = "goto" then .ok (st, .goto (gotoLabel rest))
  else if cmd = "pause" then .ok (st, .none)
  else if cmd = "exit" then .error .sysExit
  else if cmd = "color" then .ok (st, .none)
  else .ok (emit st ("Unknown command: " ++ cmd ++ " (raw: " ++ raw ++ ")"), .none)

/-- Model of the statement branch of `run_node` (src lines 252-334).  A
raw line that fails the command regex silently does nothing and returns
`None` (src lines 257-258); `clear`, `pause` and `color` touch only the
external terminal sink; `exit` raises `sys.exit`; an unrecognized command
prints a diagnostic and continues. -/
def exec_stmt (st : InterpState) (raw : String) : Except Exc (InterpState × Signal) :=
  match matchCmdLine raw with
  | none => .ok (st, .none)
  | some m => exec_cmd st raw (strToLower m.cmd) (effectiveRest m.paren m.trailing)

mutual

/-- Model of `Interpreter.run_node` (src lines 248-400) for one node:
statement execution is `exec_stmt`; a counted loop resolves its count once
before the first iteration and iterates via `loop_times`; an uncounted
loop (parameter `None` or empty, src line 338) iterates via
`loop_forever`; a conditional tries its arms via `run_if_parts`; label
nodes and orphan-arm nodes fall through to `return None` (src lines 251,
400). -/
def run_node : Nat → InterpState → Node → RunRes (InterpState × Signal)
  | 0, _, _ => .timeout
  | fuel + 1, st, n =>
    match n with
    | .label _ _ => .ok (st, .none)
    | .stmt raw =>
      match exec_stmt st raw with
      | .ok r => .ok r
      | .error e => .err e
    | .orphan _ _ _ _ => .ok (st, .none)
    | .loop param _ children =>
      match param with
      | Option.none => loop_forever fuel st children
      | some p0 =>
        if p0 = "" then loop_forever fuel st children
        else
          match resolveLoopCount st.vars (strTrim p0) with
          | .error e => .err e
          | .ok t => loop_times fuel t.toNat st children
    | .ifNode parts _ => run_if_parts fuel st parts
termination_by structural fuel => fuel

/-- The uncounted-loop loop of `run_node` (src lines 338-346): run the
body forever; a jump from the body is wrapped into a goto dictionary with
`label: None`, a return signal becomes `return_to_caller`, and a body
pass that ends normally simply starts again. -/
def loop_forever : Nat → InterpState → List Node → RunRes (InterpState × Signal)
  | 0, _, _ => .timeout
  | fuel + 1, st, body =>
    match run_stmt_list fuel st body with
    | .timeout => .timeout
    | .err e => .err e
    | .ok (st2, .jump p i) => .ok (st2, .gotoJump p i)
    | .ok (st2, .ret) => .ok (st2, .returnToCaller)
    | .ok (st2, .done) => loop_forever fuel st2 body
termination_by structural fuel => fuel

/-- The counted-loop loop of `run_node` (src lines 353-359):
`range(times)` body passes, stopping early on a jump (wrapped as in the
uncounted case) or a return signal. -/
def loop_times : Nat → Nat → InterpState → List Node → RunRes (InterpState × Signal)
  | 0, _, _, _ => .timeout
  | _ + 1, 0, st, _ => .ok (st, .none)
  | fuel + 1, k + 1, st, body =>
    match run_stmt_list fuel st body with
    | .timeout => .timeout
    | .err e => .err e
    | .ok (st2, .jump p i) => .ok (st2, .gotoJump p i)
    | .ok (st2, .ret) => .ok (st2, .returnToCaller)
    | .ok (st2, .done) => loop_times fuel k st2 body
termination_by structural fuel => fuel

/-- The arm loop of the conditional branch of `run_node` (src lines
362-398): an `else` arm runs unconditionally and ends the chain; any
other arm evaluates its condition (a failure raises `Bad condition`) and
on truth runs its body and ends the chain; a jump out of a body is
wrapped into a goto dictionary with `label: None`, a return signal
becomes `return_to_caller`; when no arm fires the chain returns `None`. -/
def run_if_parts : Nat → InterpState → List (PKind × Option String × String × List Node) → RunRes (InterpState × Signal)
  | 0, _, _ => .timeout
  | _ + 1, st, [] => .ok (st, .none)
  | fuel + 1, st, (kd, cond, _, body) :: restParts =>
    if kd = PKind.pelse then
      match run_stmt_list fuel st body with
      | .timeout => .timeout
      | .err e => .err e
      | .ok (st2, .jump p i) => .ok (st2, .gotoJump p i)
      | .ok (st2, .ret) => .ok (st2, .returnToCaller)
      | .ok (st2, .done) => .ok (st2, .none)
    else
      match condEval st.vars (cond.getD "") with
      | .error e => .err e
      | .ok true =>
        match run_stmt_list fuel st body with
        | .timeout => .timeout
        | .err e => .err e
        | .ok (st2, .jump p i) => .ok (st2, .gotoJump p i)
        | .ok (st2, .ret) => .ok (st2, .returnToCaller)
        | .ok (st2, .done) => .ok (st2, .none)
      | .ok false => run_if_parts fuel st restParts
termination_by structural fuel => fuel

/-- Model of `Interpreter.run_stmt_list` (src lines 232-246): execute the
nodes in order; a dictionary with action `goto` has its `label` entry
looked up in the label table — which includes the propagated-jump
dictionaries, whose label is `None` and therefore raises
`Unknown label: None` — and becomes a jump result; a return-to-caller
dictionary returns; any other result continues with the next node. -/
def run_stmt_list : Nat → InterpState → List Node → RunRes (InterpState × StmtRes)
  | 0, _, _ => .timeout
  | _ + 1, st, [] => .ok (st, .done)
  | fuel + 1, st, n :: tl =>
    match run_node fuel st n with
    | .timeout => .timeout
    | .err e => .err e
    | .ok (st2, sig) =>
      match sig with
      | .goto lbl =>
        match alookup st2.labels lbl with
        | some (p, i) => .ok (st2, .jump p i)
        | Option.none => .err (.runtimeError ("Unknown label: " ++ lbl))
      | .gotoJump _ _ => .err (.runtimeError "Unknown label: None")
      | .returnToCaller => .ok (st2, .ret)
      | .none => run_stmt_list fuel st2 tl
termination_by structural fuel => fuel

end

/-- The step ceiling `self.call_stack_limit` (src line 186). -/
def call_stack_limit : Nat := 10000

/-- Model of `Interpreter.run` (src lines 402-429): walk the current list
by index; a goto dictionary with a label resolves it through the label
table (raising `Unknown label` when absent) and switches list and index;
a propagated-jump dictionary switches directly; any other result advances
the index and the step counter, raising the step-limit error beyond the
ceiling.  Jumps do not advance the counter (the increment sits after the
`continue` statements, src lines 419, 425). -/
def run_top : Nat → InterpState → ListAddr → Nat → Nat → RunRes InterpState
  | 0, _, _, _, _ => .timeout
  | fuel + 1, st, addr, idx, steps =>
    let lst := (getList st.root addr).getD []
    if h : idx < lst.length then
      match run_node fuel st (lst.get ⟨idx, h⟩) with
      | .timeout => .timeout
      | .err e => .err e
      | .ok (st2, sig) =>
        match sig with
        | .goto lbl =>
          match alookup st2.labels lbl with
          | some (p, i) => run_top fuel st2 p i steps
          | Option.none => .err (.runtimeError ("Unknown label: " ++ lbl))
        | .gotoJump p i => run_top fuel st2 p i steps
        | _ =>
          if steps + 1 > call_stack_limit then
            .err (.runtimeError "Step limit exceeded (possible infinite loop).")
          else run_top fuel st2 addr (idx + 1) (steps + 1)
    else .ok st

/-- Builds the interpreter state as `Interpreter.__init__` does (src lines
181-186): parse, index the labels, start from an empty variable store.
The label-index fuel bound cannot be exhausted: the traversal visits each
node once and there are fewer nodes than source lines. -/
def initState (lines : List String) : InterpState :=
  let root := parse_lines lines
  { root := root
    labels := indexLabels root (2 * lines.length + 8)
    vars := []
    output := [] }

/-- Model of `run_script_text` (src lines 460-464) on pre-split lines:
build the interpreter and run from the root list at index 0 with step
counter 0. -/
def runScript (lines : List String) (fuel : Nat) : RunRes InterpState :=
  run_top fuel (initState lines) .rootA 0 0

/-- Output projection of a normally finished run. -/
def runOut (lines : List String) (fuel : Nat) : Option (List String) :=
  match runScript lines fuel with
  | .ok st => some st.output
  | _ => none

/-- Exception projection of a run. -/
def runErr (lines : List String) (fuel : Nat) : Option Exc :=
  match runScript lines fuel with
  | .err e => some e
  | _ => none

/-- Variable projection of a normally finished run. -/
def runVar (lines : List String) (fuel : Nat) (x : String) : Option Value :=
  match runScript lines fuel with
  | .ok st => alookup st.vars x
  | _ => none

/-!
Sanity checks: concrete evaluations of the embedded definitions.
-/

example : pyEvalStr "5 + 2" = some (.vint 7) := by decide

example : pyEvalStr "-3 * (2 + 1)" = some (.vint (-9)) := by decide

example : pyEvalStr "5 == 7" = some (.vbool false) := by decide

example : substExprVars [("x", .num 5)] "x + 2" = "5 + 2" := by decide

example : substExprVars [] "y + 2" = "0 + 2" := by decide

example : eval_expr [("x", .num 5)] "x + 2" = .ok (.num 7) := by decide

example : String.mk (normEqGo 20 none "x = 7".data) = "x==7" := by decide

example : String.mk (normEqGo 20 none "x == 7".data) = "x == 7" := by decide

example : condEval [("x", .num 7)] "x = 7" = .ok true := by decide

example : condEval [] "1" = .ok true := by decide

example : parse_lines ["text \"hi\""] = [.stmt "text \"hi\""] := rfl

example : parse_lines ["loop(3):", "    text \"hi\""] =
    [.loop (some "3") "loop(3):" [.stmt "text \"hi\""]] := rfl

example : parse_lines ["loop:", "    set x = 1", "done():"] =
    [.loop none "loop:" [.stmt "set x = 1"], .label "done" "done():"] := rfl

example : parse_lines ["if x = 1:", "    echo A", "else:", "    echo B"] =
    [.ifNode [(.pif, some "x = 1", "if x = 1:", [.stmt "echo A"]),
              (.pelse, none, "else:", [.stmt "echo B"])] "if x = 1:"] := rfl

example : parse_lines ["else:"] = [.orphan .pelse none "else:" []] := rfl

example : parse_lines ["loop():"] = [.label "loop" "loop():"] := rfl

example : indexLabels (parse_lines ["loop(2):", "    goto out()", "out():", "text \"d\""]) 20 =
    [("out", .rootA, 2)] := rfl

example : runOut ["loop(3):", "    text \"hi\""] 100 = some ["hi", "hi", "hi"] := by decide

example : runErr ["loop(2):", "    loop(2):", "        goto out()", "out():", "text \"d\""] 60 =
    some (.runtimeError "Unknown label: None") := by decide

example : runOut ["goto d()", "text \"skipped\"", "d():", "text \"end\""] 60 =
    some ["end"] := by decide

example : runVar ["set x = 5", "math x = x + 2"] 60 "x" = some (.num 7) := by decide

example : runOut ["if x = 7:", "    text \"A\"", "else:", "    text \"B\""] 60 =
    some ["B"] := by decide

example : runOut ["set x = 7", "if x = 7:", "    text \"A\"", "else:", "    text \"B\""] 60 =
    some ["A"] := by decide

example : runOut ["set n = 2", "loop(n):", "    math n = n + 5", "text n"] 100 =
    some ["12"] := by decide

example : runOut ["bogus stuff", "123abc"] 60 =
    some ["Unknown command: bogus (raw: bogus stuff)"] := by decide

example : matchCmdLine "text(\"a\") extra" =
    some ⟨"text", some "\"a\"", some "extra"⟩ := by decide

example : matchCmdLine "text \"a\", x" = some ⟨"text", none, some "\"a\", x"⟩ := by decide

example : matchCmdLine "text(a)x" = none := by decide

example : matchCmdLine "1abc" = none := by decide

example : matchCmdLine "pause" = some ⟨"pause", none, none⟩ := by decide

example : matchCmdLine "text()" = some ⟨"text", some "", none⟩ := by decide

example : matchAssign "x = x + 2" = some ("x", "x + 2") := by decide

example : matchAssign "x" = none := by decide

example : tokenize_text_args "\"a,b\", c ,, d" = ["\"a,b\"", "c", "", "d"] := by decide

example : gotoLabel " done() " = "done" := by decide

example : is_number " 42 " = true ∧ is_number "x2" = false ∧ to_number "-7" = -7 := by decide

example : strToLower "TeXt" = "text" := by decide

/-!
Claim theorems.
-/

/-- C1: the claim states that a goto executing inside a loop or
conditional body nested inside another one has its Jump signal
re-propagated unchanged through every enclosing dispatcher up to the
top-level run loop, with no error when the label is defined.  The code
instead raises: `run_stmt_list` inspects the propagated dictionary, whose
`label` entry is `None`, looks `None` up in the label table and raises
`Unknown label: None` (src lines 237-241).  This theorem evaluates the
model at the failing input: a goto to the label `out` — defined, as the
second conjunct shows — from a loop nested inside another loop raises
`Unknown label: None` instead of jumping. -/
theorem C1_nested_goto_raises :
    runErr ["loop(2):", "    loop(2):", "        goto out()", "out():", "text \"done\""] 60 =
      some (.runtimeError "Unknown label: None") ∧
    alookup (initState ["loop(2):", "    loop(2):", "        goto out()", "out():",
      "text \"done\""]).labels "out" = some (.rootA, 2) := by
  exact ⟨by decide, by decide⟩

/-- C3 counterexample: for the statement `echo(hello) world`, which has
both a parenthesised argument list and nonempty trailing text, the
executed argument is the trailing text `world`, not the parenthesised
`hello` — the printed line shows it, refuting the claim that the
parenthesised form wins. -/
theorem C3_counterexample :
    runOut ["echo(hello) world"] 10 = some ["world"] ∧ "world" ≠ "hello" := by
  exact ⟨by decide, by decide⟩

/-- C3 (amended): when both a parenthesised argument list and nonempty
trailing text are present, the command's arguments are taken from the
trailing text; the parenthesised list is used only when the trailing text
is absent or strips to nothing (src lines 262-263). -/
theorem C3_trailing_text_wins :
    (∀ p r : String, p ≠ "" → (listTrim r.data).isEmpty = false →
      effectiveRest (some p) (some r) = r) ∧
    runOut ["echo(hello) world"] 10 = some ["world"] ∧
    runOut ["echo(hello)"] 10 = some ["hello"] := by
  refine ⟨?_, by decide, by decide⟩
  intro p r hp hr
  simp [effectiveRest, hp, hr]

/-- C3 witness: the amended rule evaluated at a concrete input. -/
theorem C3_witness : effectiveRest (some "hello") (some "world") = "world" :=
  C3_trailing_text_wins.1 "hello" "world" (by decide) (by decide)

/-- C4 counterexample: parsing an orphan `else:` does not fail — there is
no parse error anywhere in `parse_lines`, a total function — and the
orphan is appended to the statement list as an `ifpart` node (src line
164) rather than rejected or dropped. -/
theorem C4_counterexample :
    parse_lines ["else:"] = [.orphan .pelse none "else:" []] := rfl

/-- C4 (amended): an `elif`/`else` header with no preceding conditional in
the same statement list is not a parse error: it is appended to the list
as an inert orphan node — no body frame is pushed and parsing simply
continues — and executing the orphan node does nothing (`run_node` falls
through to `return None`, src line 400). -/
theorem C4_orphan_is_inert :
    parse_lines ["elif 1:", "text \"a\""] =
      [.orphan .pelif (some "1") "elif 1:" [], .stmt "text \"a\""] ∧
    (∀ (fuel : Nat) (st : InterpState) (k : PKind) (c : Option String) (r : String)
      (cs : List Node), run_node (fuel + 1) st (.orphan k c r cs) = .ok (st, .none)) :=
  ⟨rfl, fun _ _ _ _ _ _ => rfl⟩

/-- C4 witness: inertness of a concrete orphan node. -/
theorem C4_witness :
    run_node 5 ⟨[], [], [], []⟩ (.orphan .pelse none "else:" []) =
      .ok (⟨[], [], [], []⟩, .none) :=
  C4_orphan_is_inert.2 4 ⟨[], [], [], []⟩ .pelse none "else:" []

/-- C5 counterexample: with a plain statement between the conditional
chain and the `elif` header, the tree builder still attaches the arm to
the earlier conditional — the backward scan walks past the intervening
node (src lines 144-147) — refuting the claim that only the immediately
preceding sibling is considered. -/
theorem C5_counterexample :
    parse_lines ["if 1:", "    echo A", "set x = 1", "elif 2:", "    echo B"] =
      [.ifNode [(.pif, some "1", "if 1:", [.stmt "echo A"]),
                (.pelif, some "2", "elif 2:", [.stmt "echo B"])] "if 1:",
       .stmt "set x = 1"] := rfl

/-- C5 (amended): the backward lookup for an `elif`/`else` scans the whole
current list from the end to the nearest conditional wrapper, skipping any
intervening non-conditional nodes; the arm becomes an orphan only when no
conditional exists anywhere earlier in the list. -/
theorem C5_backward_scan_skips :
    (∀ (l : List Node) (n : Node), isIfNode n = false →
      findLastIf (l ++ [n]) = findLastIf l) ∧
    parse_lines ["if 1:", "    echo A", "set x = 1", "set y = 2", "elif 2:",
        "    echo B"] =
      [.ifNode [(.pif, some "1", "if 1:", [.stmt "echo A"]),
                (.pelif, some "2", "elif 2:", [.stmt "echo B"])] "if 1:",
       .stmt "set x = 1", .stmt "set y = 2"] := by
  refine ⟨?_, rfl⟩
  intro l n hn
  induction l with
  | nil => simp [findLastIf, hn]
  | cons a t ih => simp [findLastIf, ih]

/-- C5 witness: the scan-skipping rule at a concrete list. -/
theorem C5_witness :
    findLastIf ([Node.ifNode [] "if 0:"] ++ [Node.stmt "set x = 1"]) =
      findLastIf [Node.ifNode [] "if 0:"] :=
  C5_backward_scan_skips.1 [Node.ifNode [] "if 0:"] (Node.stmt "set x = 1") rfl

/-- C10: a statement whose raw text does not begin with an identifier
character fails the command regex, and executing it changes nothing and
prints nothing (src lines 256-258); an unrecognized command name, by
contrast, prints an `Unknown command` diagnostic and continues (src line
333). -/
theorem C10_unmatched_statement_skipped :
    (∀ (st : InterpState) (raw : String) (c : Char) (cs : List Char),
      raw.data = c :: cs → isIdentStart c = false →
      exec_stmt st raw = .ok (st, .none)) ∧
    exec_stmt ⟨[], [], [], []⟩ "foo bar" =
      .ok (emit ⟨[], [], [], []⟩ "Unknown command: foo (raw: foo bar)", .none) := by
  refine ⟨?_, rfl⟩
  intro st raw c cs hdata hc
  unfold exec_stmt matchCmdLine identSplit
  rw [hdata]
  simp [hc]

/-- C10 witness: the silent skip at a concrete digit-led statement. -/
theorem C10_witness :
    exec_stmt ⟨[], [], [], []⟩ "1abc" = .ok (⟨[], [], [], []⟩, .none) :=
  C10_unmatched_statement_skipped.1 ⟨[], [], [], []⟩ "1abc" '1' ['a', 'b', 'c'] rfl rfl

/-- Packing a string's own character data yields the string back. -/
theorem strMkData (s : String) : String.mk s.data = s := rfl

/-- A list all of whose elements satisfy the predicate is its own
`takeWhile`. -/
theorem takeWhileAll {α : Type} (p : α → Bool) :
    ∀ l : List α, (∀ x ∈ l, p x = true) → l.takeWhile p = l := by
  intro l h
  induction l with
  | nil => rfl
  | cons a t ih =>
    have ha := h a (List.mem_cons_self a t)
    simp [List.takeWhile_cons, ha, ih (fun x hx => h x (List.mem_cons_of_mem a hx))]

/-- A list all of whose elements satisfy the predicate has empty
`dropWhile`. -/
theorem dropWhileAll {α : Type} (p : α → Bool) :
    ∀ l : List α, (∀ x ∈ l, p x = true) → l.dropWhile p = [] := by
  intro l h
  induction l with
  | nil => rfl
  | cons a t ih =>
    have ha := h a (List.mem_cons_self a t)
    simp [List.dropWhile_cons, ha, ih (fun x hx => h x (List.mem_cons_of_mem a hx))]

/-- The run substitution of the empty character list is empty. -/
theorem substRunsGoNil (repl : String → String) (fuel : Nat) :
    substRunsGo repl fuel [] = [] := by
  cases fuel <;> rfl

/-- C6: executing `set x = 5` and then `math x = x + 2` from any initial
variable store (and any tree, label table and prior output) completes
normally and leaves `x` bound to the number 7. -/
theorem C6_set_then_math_yields_seven :
    ∀ (root : List Node) (labels : List (String × ListAddr × Nat))
      (vars0 : List (String × Value)) (out0 : List String),
      ∃ st2, run_stmt_list 10 ⟨root, labels, vars0, out0⟩
          [.stmt "set x = 5", .stmt "math x = x + 2"] = .ok (st2, .done) ∧
        alookup st2.vars "x" = some (.num 7) := by
  intro root labels vars0 out0
  refine ⟨⟨root, labels, dictUpd (dictUpd vars0 "x" (.num 5)) "x" (.num 7), out0⟩, ?_, ?_⟩
  · rfl
  · rfl

/-- C6 witness: the rule at the empty initial state. -/
theorem C6_witness :
    ∃ st2, run_stmt_list 10 ⟨[], [], [], []⟩
        [.stmt "set x = 5", .stmt "math x = x + 2"] = .ok (st2, .done) ∧
      alookup st2.vars "x" = some (.num 7) :=
  C6_set_then_math_yields_seven [] [] [] []

/-- C7: a counted loop iterates exactly its count, the count being
resolved once before the first iteration.  First conjunct: whenever one
body pass (given enough fuel) completes normally as the state transformer
`upd`, `loop_times` over count `t` produces exactly the `t`-fold iterate
of `upd` with a normal-completion signal — and by the shape of
`loop_times` a jump or return signal from a pass is the only early stop.
Second conjunct: the spec example — `loop(3):` over `text "hi"` prints
exactly three `hi` lines.  Third conjunct: the count is resolved once
before the first iteration — a loop counted by variable `n`, initially 2,
whose body adds 5 to `n` each pass, runs exactly twice and prints `12`
(re-resolution against the growing `n` would iterate further). -/
theorem C7_counted_loop_exact :
    (∀ (body : List Node) (upd : InterpState → InterpState) (f0 : Nat),
      (∀ f s, f0 ≤ f → run_stmt_list f s body = .ok (upd s, .done)) →
      ∀ (t : Nat) (st : InterpState) (fuel : Nat), f0 + t < fuel →
        loop_times fuel t st body = .ok (upd^[t] st, .none)) ∧
    runOut ["loop(3):", "    text \"hi\""] 100 = some ["hi", "hi", "hi"] ∧
    runOut ["set n = 2", "loop(n):", "    math n = n + 5", "text n"] 100 =
      some ["12"] := by
  refine ⟨?_, by decide, by decide⟩
  intro body upd f0 hbody t
  induction t with
  | zero =>
    intro st fuel hf
    match fuel, hf with
    | f + 1, _ => rfl
  | succ k ih =>
    intro st fuel hf
    match fuel, hf with
    | f + 1, hf =>
      have h1 : run_stmt_list f st body = .ok (upd st, .done) := hbody f st (by omega)
      have h2 := ih (upd st) f (by omega)
      simp only [loop_times, h1]
      rw [h2, Function.iterate_succ_apply]

/-- C7 witness: the exact-iteration rule instantiated with the one-line
body `text "hi"`, count 3 and fuel 10. -/
theorem C7_witness :
    loop_times 10 3 ⟨[], [], [], []⟩ [.stmt "text \"hi\""] =
      .ok ((fun s => emit s "hi")^[3] ⟨[], [], [], []⟩, .none) :=
  C7_counted_loop_exact.1 [.stmt "text \"hi\""] (fun s => emit s "hi") 2
    (fun f s hf => by
      obtain ⟨k, rfl⟩ : ∃ k, f = k + 2 := ⟨f - 2, by omega⟩
      rfl)
    3 ⟨[], [], [], []⟩ 10 (by omega)

/-- C8: an identifier absent from the variable store substitutes to the
literal `0` in expression context — stated for any store and any
identifier-shaped token other than the reserved boolean keywords, both at
the substitution step and through `eval_expr`, which evaluates the bare
identifier to the number 0 — and a bare unknown identifier in the
plain-value context of a `text` argument resolves to empty text, printing
an empty line. -/
theorem C8_unknown_identifier_zero :
    (∀ (vars : List (String × Value)) (s : String) (c : Char) (cs : List Char),
      s.data = c :: cs → isIdentStart c = true → (∀ x ∈ s.data, isWordChar x = true) →
      s ≠ "and" → s ≠ "or" → s ≠ "not" → alookup vars s = none →
      substExprVars vars s = "0" ∧ eval_expr vars s = .ok (.num 0)) ∧
    (∀ (root : List Node) (labels : List (String × ListAddr × Nat))
      (vars : List (String × Value)) (out0 : List String),
      alookup vars "y" = none →
      exec_stmt ⟨root, labels, vars, out0⟩ "text y" =
        .ok (emit ⟨root, labels, vars, out0⟩ "", .none)) := by
  constructor
  · intro vars s c cs hdata hstart hall hand hor hnot hlook
    have hw : isWordChar c = true := hall c (by rw [hdata]; exact List.mem_cons_self c cs)
    have hallcs : ∀ x ∈ cs, isWordChar x = true := fun x hx =>
      hall x (by rw [hdata]; exact List.mem_cons_of_mem c hx)
    have htake : cs.takeWhile isWordChar = cs := takeWhileAll _ cs hallcs
    have hdrop : cs.dropWhile isWordChar = [] := dropWhileAll _ cs hallcs
    have hsub : substExprVars vars s = "0" := by
      unfold substExprVars substRuns
      rw [hdata]
      simp only [substRunsGo, hw, htake, hdrop, hstart, if_true, List.length_cons,
        substRunsGoNil, List.append_nil]
      rw [← hdata, strMkData]
      unfold replVar
      rw [hlook]
      simp [hand, hor, hnot]
    refine ⟨hsub, ?_⟩
    unfold eval_expr
    rw [hsub]
    rfl
  · intro root labels vars out0 hy
    have h1 : exec_stmt ⟨root, labels, vars, out0⟩ "text y" =
        .ok (emit ⟨root, labels, vars, out0⟩
          (strJoin [valueToString ((alookup vars "y").getD (.str ""))]), .none) := rfl
    rw [h1, hy]
    rfl

/-- C8 witness: the substitution rule at a concrete store and token. -/
theorem C8_witness :
    substExprVars [("z", .num 3)] "foo" = "0" ∧
      eval_expr [("z", .num 3)] "foo" = .ok (.num 0) :=
  C8_unknown_identifier_zero.1 [("z", .num 3)] "foo" 'f' ['o', 'o'] rfl rfl
    (by decide) (by decide) (by decide) (by decide) rfl

/-- One pass of the body `set x = 1` either times out (fuel below 2) or
completes normally, having only written `x`. -/
theorem C2BodyPass (f : Nat) (st : InterpState) :
    run_stmt_list f st [.stmt "set x = 1"] = .timeout ∨
      run_stmt_list f st [.stmt "set x = 1"] = .ok (setVar st "x" (.num 1), .done) := by
  match f with
  | 0 => exact Or.inl rfl
  | 1 => exact Or.inl rfl
  | k + 2 => exact Or.inr rfl

/-- The uncounted loop over that body never yields a result, whatever the
fuel: the `while True` of src lines 339-346 never leaves the `done`
branch. -/
theorem C2LoopForever : ∀ (f : Nat) (st : InterpState),
    loop_forever f st [.stmt "set x = 1"] = .timeout := by
  intro f
  induction f with
  | zero => intro st; rfl
  | succ k ih =>
    intro st
    rcases C2BodyPass k st with h | h
    · simp only [loop_forever, h]
    · simp only [loop_forever, h]
      exact ih (setVar st "x" (.num 1))

/-- A top-level step whose node execution times out makes the whole run
time out. -/
theorem runTopNodeTimeout (fuel : Nat) (st : InterpState) (addr : ListAddr)
    (idx steps : Nat) (h : idx < ((getList st.root addr).getD []).length)
    (ht : run_node fuel st (((getList st.root addr).getD []).get ⟨idx, h⟩) = .timeout) :
    run_top (fuel + 1) st addr idx steps = .timeout := by
  simp only [run_top]
  rw [dif_pos h, ht]

/-- C2: the claim states that an uncounted loop whose body neither jumps
nor exits raises `StepLimitExceeded` once the 10000-step ceiling is
exceeded.  The code instead hangs: the uncounted-loop branch of
`run_node` is an unbounded `while True` that never returns, and the step
counter lives only in the top-level `run` loop, which never regains
control.  In the model: for every fuel bound, running `loop:` over
`set x = 1` is a timeout — in particular the run never produces the
step-limit error (nor any other result). -/
theorem C2_uncounted_loop_hangs :
    ∀ fuel : Nat, runScript ["loop:", "    set x = 1"] fuel = .timeout := by
  intro fuel
  match fuel with
  | 0 => rfl
  | 1 => rfl
  | g + 2 =>
    have hb : run_node (g + 1) (initState ["loop:", "    set x = 1"])
        ((((getList (initState ["loop:", "    set x = 1"]).root .rootA).getD []).get
          ⟨0, by decide⟩)) = .timeout :=
      C2LoopForever g (initState ["loop:", "    set x = 1"])
    exact runTopNodeTimeout (g + 1) (initState ["loop:", "    set x = 1"]) .rootA 0 0
      (by decide) hb

/-- C2 witness: the hang at a concrete fuel bound. -/
theorem C2_witness : runScript ["loop:", "    set x = 1"] 1000 = .timeout :=
  C2_uncounted_loop_hangs 1000

/-- Statement execution leaves the tree and the label table alone: every
branch of `exec_stmt` returns the incoming state, an `emit` of it, or a
`setVar` of it. -/
theorem execStmtFrame (st : InterpState) (raw : String) (p : InterpState × Signal)
    (h : exec_stmt st raw = .ok p) : p.1.root = st.root ∧ p.1.labels = st.labels := by
  unfold exec_stmt exec_cmd exec_set exec_math at h
  repeat' split at h
  all_goals (try (injection h with h2; rw [← h2]; exact ⟨rfl, rfl⟩))
  all_goals injection h

/-- Frame property of the execution engine, by induction on fuel: every
dispatcher that returns normally leaves `root` and `labels` unchanged. -/
theorem engineFrame : ∀ fuel : Nat,
    (∀ st n p, run_node fuel st n = .ok p →
      p.1.root = st.root ∧ p.1.labels = st.labels) ∧
    (∀ st body p, loop_forever fuel st body = .ok p →
      p.1.root = st.root ∧ p.1.labels = st.labels) ∧
    (∀ k st body p, loop_times fuel k st body = .ok p →
      p.1.root = st.root ∧ p.1.labels = st.labels) ∧
    (∀ st parts p, run_if_parts fuel st parts = .ok p →
      p.1.root = st.root ∧ p.1.labels = st.labels) ∧
    (∀ st l p, run_stmt_list fuel st l = .ok p →
      p.1.root = st.root ∧ p.1.labels = st.labels) := by
  intro fuel
  induction fuel with
  | zero =>
    refine ⟨fun st n p h => ?_, fun st b p h => ?_, fun k st b p h => ?_,
      fun st pr p h => ?_, fun st l p h => ?_⟩
    · simp [run_node] at h
    · simp [loop_forever] at h
    · simp [loop_times] at h
    · simp [run_if_parts] at h
    · simp [run_stmt_list] at h
  | succ f ih =>
    obtain ⟨ihN, ihF, ihT, ihI, ihL⟩ := ih
    have bodyStep : ∀ (st st2 : InterpState) (body : List Node) (r : StmtRes),
        run_stmt_list f st body = .ok (st2, r) →
        st2.root = st.root ∧ st2.labels = st.labels :=
      fun st st2 body r hh => ihL st body (st2, r) hh
    refine ⟨?_, ?_, ?_, ?_, ?_⟩
    · intro st n p h
      cases n with
      | label name raw =>
        simp only [run_node] at h
        injection h with h2
        rw [← h2]
        exact ⟨rfl, rfl⟩
      | stmt raw =>
        simp only [run_node] at h
        split at h
        next r heq =>
          injection h with h2
          rw [← h2]
          exact execStmtFrame st raw r heq
        next e heq => exact absurd h (by simp)
      | orphan k c r cs =>
        simp only [run_node] at h
        injection h with h2
        rw [← h2]
        exact ⟨rfl, rfl⟩
      | loop param raw children =>
        cases param with
        | none =>
          simp only [run_node] at h
          exact ihF st children p h
        | some p0 =>
          simp only [run_node] at h
          split at h
          · exact ihF st children p h
          · split at h
            next e heq => exact absurd h (by simp)
            next t heq => exact ihT t.toNat st children p h
      | ifNode parts raw =>
        simp only [run_node] at h
        exact ihI st parts p h
    · intro st body p h
      simp only [loop_forever] at h
      split at h
      · exact absurd h (by simp)
      · exact absurd h (by simp)
      next st2 q i heq =>
        injection h with h2
        rw [← h2]
        exact bodyStep st st2 body _ heq
      next st2 heq =>
        injection h with h2
        rw [← h2]
        exact bodyStep st st2 body _ heq
      next st2 heq =>
        have h1 := bodyStep st st2 body _ heq
        have h2 := ihF st2 body p h
        exact ⟨h2.1.trans h1.1, h2.2.trans h1.2⟩
    · intro k st body p h
      cases k with
      | zero =>
        simp only [loop_times] at h
        injection h with h2
        rw [← h2]
        exact ⟨rfl, rfl⟩
      | succ k2 =>
        simp only [loop_times] at h
        split at h
        · exact absurd h (by simp)
        · exact absurd h (by simp)
        next st2 q i heq =>
          injection h with h2
          rw [← h2]
          exact bodyStep st st2 body _ heq
        next st2 heq =>
          injection h with h2
          rw [← h2]
          exact bodyStep st st2 body _ heq
        next st2 heq =>
          have h1 := bodyStep st st2 body _ heq
          have h2 := ihT k2 st2 body p h
          exact ⟨h2.1.trans h1.1, h2.2.trans h1.2⟩
    · intro st parts p h
      cases parts with
      | nil =>
        simp only [run_if_parts] at h
        injection h with h2
        rw [← h2]
        exact ⟨rfl, rfl⟩
      | cons hd tl =>
        obtain ⟨kd, cond, raw, body⟩ := hd
        simp only [run_if_parts] at h
        split at h
        · split at h
          · exact absurd h (by simp)
          · exact absurd h (by simp)
          next st2 q i heq =>
            injection h with h2
            rw [← h2]
            exact bodyStep st st2 body _ heq
          next st2 heq =>
            injection h with h2
            rw [← h2]
            exact bodyStep st st2 body _ heq
          next st2 heq =>
            injection h with h2
            rw [← h2]
            exact bodyStep st st2 body _ heq
        · split at h
          next e heq => exact absurd h (by simp)
          next heq =>
            split at h
            · exact absurd h (by simp)
            · exact absurd h (by simp)
            next st2 q i heq2 =>
              injection h with h2
              rw [← h2]
              exact bodyStep st st2 body _ heq2
            next st2 heq2 =>
              injection h with h2
              rw [← h2]
              exact bodyStep st st2 body _ heq2
            next st2 heq2 =>
              injection h with h2
              rw [← h2]
              exact bodyStep st st2 body _ heq2
          next heq => exact ihI st tl p h
    · intro st l p h
      cases l with
      | nil =>
        simp only [run_stmt_list] at h
        injection h with h2
        rw [← h2]
        exact ⟨rfl, rfl⟩
      | cons n tl =>
        simp only [run_stmt_list] at h
        split at h
        · exact absurd h (by simp)
        · exact absurd h (by simp)
        next st2 sig heq =>
          have hn := ihN st n (st2, sig) heq
          split at h
          · split at h
            next q i heq2 =>
              injection h with h2
              rw [← h2]
              exact hn
            next heq2 => exact absurd h (by simp)
          · exact absurd h (by simp)
          · injection h with h2
            rw [← h2]
            exact hn
          · have h2 := ihL st2 tl p h
            exact ⟨h2.1.trans hn.1, h2.2.trans hn.2⟩

/-- Frame property of the top-level run loop. -/
theorem runTopFrame : ∀ (fuel : Nat) (st : InterpState) (addr : ListAddr)
    (idx steps : Nat) (st2 : InterpState), run_top fuel st addr idx steps = .ok st2 →
    st2.root = st.root ∧ st2.labels = st.labels := by
  intro fuel
  induction fuel with
  | zero =>
    intro st addr idx steps st2 h
    simp [run_top] at h
  | succ f ih =>
    intro st addr idx steps st2 h
    simp only [run_top] at h
    split at h
    · split at h
      · exact absurd h (by simp)
      · exact absurd h (by simp)
      next st3 sig heq =>
        have hn := (engineFrame f).1 st _ (st3, sig) heq
        split at h
        · split at h
          next q i heq2 =>
            have h2 := ih st3 q i steps st2 h
            exact ⟨h2.1.trans hn.1, h2.2.trans hn.2⟩
          next heq2 => exact absurd h (by simp)
        · have h2 := ih st3 _ _ steps st2 h
          exact ⟨h2.1.trans hn.1, h2.2.trans hn.2⟩
        · split at h
          · exact absurd h (by simp)
          · have h2 := ih st3 addr (idx + 1) (steps + 1) st2 h
            exact ⟨h2.1.trans hn.1, h2.2.trans hn.2⟩
    · injection h with h2
      rw [← h2]
      exact ⟨rfl, rfl⟩

/-- C9: during a run the program tree and the label table are never
mutated — every node execution that returns, and the whole top-level run
loop, preserve the `root` and `labels` fields of the interpreter state;
the only mutable parts of the state are the variable store and the log of
printed lines. -/
theorem C9_tree_and_labels_preserved :
    (∀ (fuel : Nat) (st : InterpState) (n : Node) (p : InterpState × Signal),
      run_node fuel st n = .ok p → p.1.root = st.root ∧ p.1.labels = st.labels) ∧
    (∀ (fuel : Nat) (st : InterpState) (addr : ListAddr) (idx steps : Nat)
      (st2 : InterpState), run_top fuel st addr idx steps = .ok st2 →
      st2.root = st.root ∧ st2.labels = st.labels) :=
  ⟨fun fuel => (engineFrame fuel).1, runTopFrame⟩

/-- C9 witness: frame preservation applied to one concrete execution. -/
theorem C9_witness :
    (emit ⟨[.stmt "echo hi"], [("l", .rootA, 1)], [], []⟩ "hi").root =
        [Node.stmt "echo hi"] ∧
      (emit ⟨[.stmt "echo hi"], [("l", .rootA, 1)], [], []⟩ "hi").labels =
        [("l", .rootA, 1)] :=
  C9_tree_and_labels_preserved.1 5 ⟨[.stmt "echo hi"], [("l", .rootA, 1)], [], []⟩
    (.stmt "echo hi") (emit ⟨[.stmt "echo hi"], [("l", .rootA, 1)], [], []⟩ "hi", .none) rfl

end Cmdl
